import Mathlib

/-
  Verification development for the Pyrix editor (src/pyrix.py).

  Shallow embedding conventions:
  * Python `str` values are modelled as `List Char` (Python slicing is by
    code point, which matches list take/drop).
  * Python `bytes` values are modelled as `List Nat` (one Nat per byte).
  * Python lists are Lean lists; `list.append` is `++ [x]`, `list.pop()`
    removes the last element, `list.pop(0)` removes the first.
  * Fallible Python code (uncaught exceptions such as ValueError or
    IndexError) is modelled with `Option`, `none` marking the exception.
  * curses calls that only paint the physical screen are external effects
    and are not part of the state; the numeric values `curses.color_pair n`
    (= n <<< 8 in ncurses) and `curses.A_BOLD` (= 1 <<< 21) are modelled as
    the corresponding natural numbers since the code stores them in cells.
-/

set_option maxHeartbeats 1000000
set_option maxRecDepth 100000

namespace Pyrix

/-! ### Python `int(s, base)` parsing

CPython `int` accepts surrounding whitespace, an optional sign, for base 16
an optional `0x`/`0X` prefix, and digit runs where a single underscore may
separate two digits (also one underscore directly after the `0x` prefix).
Anything else raises ValueError, modelled as `none`. -/

def isWsByte (b : Nat) : Bool :=
  b = 32 || b = 9 || b = 10 || b = 13 || b = 11 || b = 12

def stripWsBytes (l : List Nat) : List Nat :=
  ((l.dropWhile isWsByte).reverse.dropWhile isWsByte).reverse

def isDigitByte (b : Nat) : Bool := 48 ≤ b && b ≤ 57

/-- Digit run of a base-10 integer literal, after the first digit:
underscores may appear only between two digits. Bytes version. -/
def decDigitsGo (acc : Nat) : List Nat → Option Nat
  | [] => some acc
  | 95 :: b :: rest =>
      if isDigitByte b then decDigitsGo (acc * 10 + (b - 48)) rest else none
  | b :: rest =>
      if isDigitByte b then decDigitsGo (acc * 10 + (b - 48)) rest else none

def decDigits : List Nat → Option Nat
  | [] => none
  | b :: rest => if isDigitByte b then decDigitsGo (b - 48) rest else none

/-- CPython `int(bs)` on a bytes object, base 10. -/
def pyIntDec (bs : List Nat) : Option Int :=
  match stripWsBytes bs with
  | 43 :: rest => (decDigits rest).map (fun n => (n : Int))
  | 45 :: rest => (decDigits rest).map (fun n => -(n : Int))
  | s => (decDigits s).map (fun n => (n : Int))

def isWsChar (c : Char) : Bool :=
  c = ' ' || c = '\t' || c = '\n' || c = '\r' || c.toNat = 11 || c.toNat = 12

def stripWsChars (l : List Char) : List Char :=
  ((l.dropWhile isWsChar).reverse.dropWhile isWsChar).reverse

def hexDigitVal (c : Char) : Option Nat :=
  if '0' ≤ c && c ≤ '9' then some (c.toNat - 48)
  else if 'a' ≤ c && c ≤ 'f' then some (c.toNat - 87)
  else if 'A' ≤ c && c ≤ 'F' then some (c.toNat - 55)
  else none

def hexDigitsGo (acc : Nat) : List Char → Option Nat
  | [] => some acc
  | '_' :: c :: rest =>
      match hexDigitVal c with
      | some v => hexDigitsGo (acc * 16 + v) rest
      | none => none
  | c :: rest =>
      match hexDigitVal c with
      | some v => hexDigitsGo (acc * 16 + v) rest
      | none => none

def hexDigits : List Char → Option Nat
  | [] => none
  | c :: rest =>
      match hexDigitVal c with
      | some v => hexDigitsGo v rest
      | none => none

/-- Base-16 digit part, allowing the optional `0x`/`0X` prefix (and a single
underscore straight after the prefix). -/
def hexBody : List Char → Option Nat
  | '0' :: 'x' :: rest =>
      (match rest with
       | '_' :: r => hexDigits r
       | r => hexDigits r)
  | '0' :: 'X' :: rest =>
      (match rest with
       | '_' :: r => hexDigits r
       | r => hexDigits r)
  | s => hexDigits s

/-- CPython `int(s, 16)` on a string. -/
def pyIntHex (s : List Char) : Option Int :=
  match stripWsChars s with
  | '+' :: rest => (hexBody rest).map (fun n => (n : Int))
  | '-' :: rest => (hexBody rest).map (fun n => -(n : Int))
  | t => (hexBody t).map (fun n => (n : Int))

/-- Python slice `l[a:b]` for 0 ≤ a ≤ b (clamping at the end of the list). -/
def pySlice (l : List Char) (a b : Nat) : List Char := (l.drop a).take (b - a)

/-! ### curses attribute constants -/

/-- Numeric value of `curses.color_pair n` (ncurses packs the pair number
into bits 8 and above of the attribute word). -/
def colorPair (n : Nat) : Nat := n * 256

/-- Numeric value of `curses.A_BOLD` in ncurses. -/
def A_BOLD : Nat := 2097152

/-! ### TerminalEmulator (src/pyrix.py lines 851-931) -/

/-- One screen cell: character plus attribute word. -/
abbrev Cell := Char × Nat

def blankCell : Cell := (' ', colorPair 5)

structure TerminalEmulator where
  h : Nat
  w : Nat
  cursor_x : Nat
  cursor_y : Nat
  current_attr : Nat
  screen : List (List Cell)
  /-- `self.ansi_buf` is initialised to `b""` in `__init__` and never read
  or written anywhere else in the source; it is carried here verbatim. -/
  ansi_buf : List Nat
deriving DecidableEq, Repr

namespace TerminalEmulator

/-- `TerminalEmulator.__init__(h, w)`. -/
def init (h w : Nat) : TerminalEmulator :=
  { h := h, w := w, cursor_x := 0, cursor_y := 0,
    current_attr := colorPair 5,
    screen := List.replicate h (List.replicate w blankCell),
    ansi_buf := [] }

/-- `TerminalEmulator.scroll`: drop row 0, append a blank row, clamp the
cursor row to the last row. -/
def scroll (t : TerminalEmulator) : TerminalEmulator :=
  { t with screen := t.screen.tail ++ [List.replicate t.w blankCell],
           cursor_y := t.h - 1 }

/-- One step of the Python loop `for n in nums` in the SGR branch of
`handle_ansi`. -/
def sgrStep (attr : Nat) (n : Int) : Nat :=
  if n = 0 then colorPair 5
  else if 30 ≤ n ∧ n ≤ 37 then colorPair (40 + (n - 30).toNat)
  else if 40 ≤ n ∧ n ≤ 47 then attr
  else if n = 1 then attr ||| A_BOLD
  else attr

/-- `nums = [int(p) if p else 0 for p in params]` wrapped in
`try ... except ValueError: nums = [0]`: a single bad field collapses the
whole list to `[0]`. -/
def parseParams (ps : List (List Nat)) : List Int :=
  let vals := ps.map (fun p => if p = [] then some 0 else pyIntDec p)
  if vals.all (fun o => o.isSome) then vals.map (fun o => o.getD 0) else [0]

/-- The Python loop `for x in range(cursor_x, w)` of the `K` (erase to end
of line) branch, given as (row, first column, cell count, attribute). -/
def eraseLoop (row : List Cell) (x : Nat) : Nat → Nat → List Cell
  | 0, _ => row
  | n + 1, attr => eraseLoop (row.set x (' ', attr)) (x + 1) n attr

/-- `TerminalEmulator.handle_ansi(seq)`. `seq` is the raw byte slice
`data[i:j+1]` the caller extracted (ESC first, final byte last). -/
def handle_ansi (t : TerminalEmulator) (seq : List Nat) : TerminalEmulator :=
  match seq with
  | 27 :: 91 :: rest =>
    let cmd := (27 :: 91 :: rest).getLastD 0
    let params := rest.dropLast
    let nums := parseParams (params.splitOn 59)
    if cmd = 109 then
      { t with current_attr := nums.foldl sgrStep t.current_attr }
    else if cmd = 72 ∨ cmd = 102 then
      let y : Int := max 0 (min ((t.h : Int) - 1) (nums.headD 1 - 1))
      let x : Int := max 0 (min ((t.w : Int) - 1) ((nums.getD 1 1) - 1))
      { t with cursor_y := y.toNat, cursor_x := x.toNat }
    else if cmd = 74 then
      if nums.headD 0 = 2 then
        { t with screen := List.replicate t.h (List.replicate t.w blankCell),
                 cursor_x := 0, cursor_y := 0 }
      else t
    else if cmd = 75 then
      let row := eraseLoop (t.screen.getD t.cursor_y []) t.cursor_x
        (t.w - t.cursor_x) t.current_attr
      { t with screen := t.screen.set t.cursor_y row }
    else t
  | _ => t

/-- The non-escape byte handling of `TerminalEmulator.write` (CR, LF, BS,
BEL, printable; every other byte — including a fallen-through ESC — does
nothing). -/
def procByte (t : TerminalEmulator) (c : Nat) : TerminalEmulator :=
  if c = 13 then { t with cursor_x := 0 }
  else if c = 10 then
    let t1 := { t with cursor_y := t.cursor_y + 1 }
    if t1.h ≤ t1.cursor_y then t1.scroll else t1
  else if c = 8 then { t with cursor_x := t.cursor_x - 1 }
  else if c = 7 then t
  else if 32 ≤ c ∧ c ≤ 126 then
    if t.cursor_x < t.w then
      let t1 := { t with
        screen := t.screen.set t.cursor_y
          ((t.screen.getD t.cursor_y []).set t.cursor_x
            (Char.ofNat c, t.current_attr)),
        cursor_x := t.cursor_x + 1 }
      if t1.w ≤ t1.cursor_x then
        let t2 := { t1 with cursor_x := 0, cursor_y := t1.cursor_y + 1 }
        if t2.h ≤ t2.cursor_y then t2.scroll else t2
      else t1
    else t
  else t

/-- The inner scan of `write`: starting at `i + 1`, advance `j` while
`data[j]` is NOT in `[0x40, 0x7E]`. Returns the skipped bytes, the final
byte and the remainder when a final byte exists in the chunk. Note that
`[` itself (0x5B) lies in the final-byte range, so a CSI sequence
`ESC [ ... f` is split at the `[`. -/
def findFinal : List Nat → Option (List Nat × Nat × List Nat)
  | [] => none
  | b :: rest =>
      if 64 ≤ b ∧ b ≤ 126 then some ([], b, rest)
      else
        match findFinal rest with
        | some (mid, fin, r) => some (b :: mid, fin, r)
        | none => none

/-- The `while i < len(data)` loop of `TerminalEmulator.write`. The fuel
argument only drives the recursion; `write` passes `data.length`, which
bounds the iteration count since every step consumes at least one byte. -/
def writeLoop : TerminalEmulator → Nat → List Nat → TerminalEmulator
  | t, _, [] => t
  | t, 0, _ :: _ => t
  | t, fuel + 1, c :: rest =>
    if c = 27 then
      match findFinal rest with
      | some (mid, fin, r) =>
          writeLoop (handle_ansi t (27 :: (mid ++ [fin]))) fuel r
      | none => writeLoop (procByte t 27) fuel rest
    else writeLoop (procByte t c) fuel rest

/-- `TerminalEmulator.write(data)`. -/
def write (t : TerminalEmulator) (data : List Nat) : TerminalEmulator :=
  writeLoop t data.length data

/-- Feeding a byte stream in several chunks: successive `write` calls. -/
def writeChunks (t : TerminalEmulator) (chunks : List (List Nat)) :
    TerminalEmulator :=
  chunks.foldl write t

end TerminalEmulator

/-! ### Editor state (src/pyrix.py lines 26-848) -/

inductive Mode where
  | NORMAL | INSERT | COMMAND | CONFIG | AUTOCOMPLETE | TERMINAL
deriving DecidableEq, Repr

inductive OptType where
  | toggle | color
deriving DecidableEq, Repr

/-- One entry of `self.config_options`. Only the fields the modelled code
reads are kept: the kind, the `"hex"` value (empty for the toggle entry,
whose dict initially has no such key), and the `"bg"`/`"fg"` markers. -/
structure ConfigOpt where
  otype : OptType
  hexv : List Char
  isBg : Bool
  isFg : Bool
deriving DecidableEq, Repr

/-- An undo/redo snapshot (`{'lines': ..., 'cursor_x': ..., 'cursor_y': ...}`). -/
structure Frame where
  lines : List (List Char)
  cursor_x : Nat
  cursor_y : Nat
deriving DecidableEq, Repr

/-- The Editor fields the modelled operations touch. Undo and redo stacks
keep their newest frame at the HEAD of the list (Python appends at the end
and pops from the end; eviction `pop(0)` is therefore `dropLast` here). -/
structure EditorSt where
  lines : List (List Char)
  cursor_x : Nat
  cursor_y : Nat
  mode : Mode
  command_text : List Char
  undo_stack : List Frame
  redo_stack : List Frame
  show_line_numbers : Bool
  config_index : Nat
  config_input : List Char
  is_inputting : Bool
  config_options : List ConfigOpt
  notifications : List (List Char)
  term_fd : Option Nat
  terminal : Option TerminalEmulator
deriving DecidableEq, Repr

/-- The `self.config_options` list built in `Editor.__init__` (Tokyonight
palette). -/
def defaultConfigOptions : List ConfigOpt :=
  [⟨OptType.toggle, [], false, false⟩,
   ⟨OptType.color, ['#','c','0','c','a','f','5'], false, true⟩,
   ⟨OptType.color, ['#','1','a','1','b','2','6'], true, false⟩,
   ⟨OptType.color, ['#','b','b','9','a','f','7'], false, false⟩,
   ⟨OptType.color, ['#','9','e','c','e','6','a'], false, false⟩,
   ⟨OptType.color, ['#','5','6','5','f','8','9'], false, false⟩,
   ⟨OptType.color, ['#','7','a','a','2','f','7'], false, false⟩]

/-- Editor state straight after `Editor.__init__` with no file. -/
def freshEditor : EditorSt :=
  { lines := [[]], cursor_x := 0, cursor_y := 0, mode := Mode.NORMAL,
    command_text := [], undo_stack := [], redo_stack := [],
    show_line_numbers := true, config_index := 0, config_input := [],
    is_inputting := false, config_options := defaultConfigOptions,
    notifications := [], term_fd := none, terminal := none }

def mkFrame (e : EditorSt) : Frame :=
  ⟨e.lines, e.cursor_x, e.cursor_y⟩

/-- `Editor.save_state`: evict the OLDEST frame when the stack already has
more than 100 entries, push the current snapshot, clear redo. -/
def save_state (e : EditorSt) : EditorSt :=
  { e with
    undo_stack := mkFrame e ::
      (if 100 < e.undo_stack.length then e.undo_stack.dropLast
       else e.undo_stack),
    redo_stack := [] }

/-- `Editor.undo`. -/
def undo (e : EditorSt) : EditorSt :=
  match e.undo_stack with
  | [] => e
  | f :: rest =>
    { e with redo_stack := mkFrame e :: e.redo_stack,
             undo_stack := rest,
             lines := f.lines, cursor_x := f.cursor_x, cursor_y := f.cursor_y }

/-- `Editor.redo`. -/
def redo (e : EditorSt) : EditorSt :=
  match e.redo_stack with
  | [] => e
  | f :: rest =>
    { e with undo_stack := mkFrame e :: e.undo_stack,
             redo_stack := rest,
             lines := f.lines, cursor_x := f.cursor_x, cursor_y := f.cursor_y }

/-- `Editor.insert(ch)`. The editor keeps `cursor_y < len(lines)` and
`cursor_x ≤ len(lines[cursor_y])`; `getD`/`set` are the total renderings of
the Python subscripts. -/
def insertChar (e : EditorSt) (c : Char) : EditorSt :=
  let line := e.lines.getD e.cursor_y []
  { e with
    lines := e.lines.set e.cursor_y
      (line.take e.cursor_x ++ c :: line.drop e.cursor_x),
    cursor_x := e.cursor_x + 1 }

/-- `Editor.backspace`. -/
def backspace (e : EditorSt) : EditorSt :=
  if 0 < e.cursor_x then
    let line := e.lines.getD e.cursor_y []
    { e with
      lines := e.lines.set e.cursor_y
        (line.take (e.cursor_x - 1) ++ line.drop e.cursor_x),
      cursor_x := e.cursor_x - 1 }
  else if 0 < e.cursor_y then
    let prev := e.lines.getD (e.cursor_y - 1) []
    let cur := e.lines.getD e.cursor_y []
    { e with
      cursor_x := prev.length,
      lines := (e.lines.set (e.cursor_y - 1) (prev ++ cur)).eraseIdx e.cursor_y,
      cursor_y := e.cursor_y - 1 }
  else e

/-- Python `list.insert(i, x)` (clamps: an index past the end appends). -/
def pyInsert (l : List (List Char)) (i : Nat) (x : List Char) :
    List (List Char) :=
  l.take i ++ x :: l.drop i

/-- `Editor.newline`. -/
def newline (e : EditorSt) : EditorSt :=
  let line := e.lines.getD e.cursor_y []
  { e with
    lines := pyInsert (e.lines.set e.cursor_y (line.take e.cursor_x))
      (e.cursor_y + 1) (line.drop e.cursor_x),
    cursor_y := e.cursor_y + 1,
    cursor_x := 0 }

/-- `Editor.delete_char` (the `x` command): checkpoint first, then delete
the character under the cursor if any. (The trailing `stdscr.refresh()` is
a pure display effect.) -/
def delete_char (e : EditorSt) : EditorSt :=
  let e1 := save_state e
  let line := e1.lines.getD e1.cursor_y []
  if e1.cursor_x < line.length then
    let line1 := line.take e1.cursor_x ++ line.drop (e1.cursor_x + 1)
    { e1 with lines := e1.lines.set e1.cursor_y line1 }
  else e1

def isWordChar (c : Char) : Bool := c.isAlphanum || c = '_'

/-- The backwards scan of `Editor.get_current_word`. -/
def wordStart (line : List Char) : Nat → Nat
  | 0 => 0
  | x + 1 => if isWordChar (line.getD x ' ') then wordStart line x else x + 1

/-- `Editor.get_current_word`: `line[start:cursor_x]`. -/
def get_current_word (e : EditorSt) : List Char :=
  let line := e.lines.getD e.cursor_y []
  let start := wordStart line e.cursor_x
  (line.drop start).take (e.cursor_x - start)

/-- Accepting a completion (`handle_insert` right-arrow branch and the
Enter/Right branches of `handle_autocomplete` share this code): the word
ending at the cursor is replaced by the suggestion. Note `cursor_x ≥
len(word)` always holds, so the `Nat` subtraction is exact. -/
def accept_suggestion (e : EditorSt) (sugg : List Char) : EditorSt :=
  let word := get_current_word e
  let e1 := save_state e
  let line := e1.lines.getD e1.cursor_y []
  { e1 with
    lines := e1.lines.set e1.cursor_y
      (line.take (e1.cursor_x - word.length) ++ sugg ++ line.drop e1.cursor_x),
    cursor_x := e1.cursor_x - word.length + sugg.length }

/-- The logically atomic edits of the spec, each exactly as its
`handle_insert` / `handle_normal` code path performs it (checkpoint via
`save_state`, then the mutation; `delete_char` checkpoints internally). -/
inductive Edit where
  | insertKey (c : Char)
  | backspaceKey
  | enterKey
  | tabKey
  | deleteForward
  | acceptKey (sugg : List Char)
deriving DecidableEq, Repr

def applyEdit (e : EditorSt) : Edit → EditorSt
  | Edit.insertKey c => insertChar (save_state e) c
  | Edit.backspaceKey => backspace (save_state e)
  | Edit.enterKey => newline (save_state e)
  | Edit.tabKey =>
      insertChar (insertChar (insertChar (insertChar (save_state e) ' ') ' ') ' ') ' '
  | Edit.deleteForward => delete_char e
  | Edit.acceptKey sugg => accept_suggestion e sugg

def applyEdits (e : EditorSt) : List Edit → EditorSt
  | [] => e
  | ed :: rest => applyEdits (applyEdit e ed) rest

def iterUndo (e : EditorSt) : Nat → EditorSt
  | 0 => e
  | n + 1 => iterUndo (undo e) n

/-- The checkpoint frames a run of edits pushes, newest first. -/
def checkpoints (e : EditorSt) : List Edit → List Frame
  | [] => []
  | ed :: rest => checkpoints (applyEdit e ed) rest ++ [mkFrame e]

/-! ### COMMAND dispatch (src/pyrix.py lines 281-314, 556-585) -/

/-- Python `str.strip()`. -/
def pyStrip (l : List Char) : List Char := stripWsChars l

/-- `Editor.notify(msg)` (the wall-clock timestamp only drives display
expiry and is dropped). -/
def notify (e : EditorSt) (msg : List Char) : EditorSt :=
  { e with notifications := e.notifications ++ [msg] }

/-- `Editor.open_terminal`: a fresh `TerminalEmulator (h-2) w`, a fresh PTY
master descriptor (`fd`, supplied by the OS), TERMINAL mode. The child
spawn, the non-blocking flag and the TIOCSWINSZ ioctl are external
effects. -/
def open_terminal (e : EditorSt) (h w fd : Nat) : EditorSt :=
  { e with terminal := some (TerminalEmulator.init (h - 2) w),
           term_fd := some fd,
           mode := Mode.TERMINAL }

/-- Result of one `handle_command` call: the new state, whether the call
returned `"QUIT"`, and how many times `self.save()` was invoked. -/
structure HCResult where
  st : EditorSt
  quit : Bool
  saves : Nat
deriving DecidableEq, Repr

def fileSavedMsg : List Char := ['F','i','l','e',' ','S','a','v','e','d']

/-- `Editor.handle_command(key)`. `h`, `w` are the screen dimensions and
`fd` the descriptor a `term` dispatch would obtain. `curses.KEY_BACKSPACE`
is 263. The final `if 32 <= key <= 126` of the source is a separate `if`,
not an `elif`, and runs after the dispatch. -/
def handle_command (e : EditorSt) (key : Nat) (h w fd : Nat) : HCResult :=
  let r : HCResult :=
    if key = 27 then ⟨{ e with mode := Mode.NORMAL }, false, 0⟩
    else if key = 10 then
      let cmd := pyStrip e.command_text
      if cmd = ['w'] then
        ⟨{ notify e fileSavedMsg with mode := Mode.NORMAL }, false, 1⟩
      else if cmd = ['q'] then ⟨e, true, 0⟩
      else if cmd = ['w','q'] then ⟨e, true, 1⟩
      else if cmd = ['u'] then ⟨{ undo e with mode := Mode.NORMAL }, false, 0⟩
      else if cmd = ['r'] then ⟨{ redo e with mode := Mode.NORMAL }, false, 0⟩
      else if cmd = ['c','o','n','f','i','g'] then
        ⟨{ e with mode := Mode.CONFIG, config_index := 0 }, false, 0⟩
      else if cmd = ['t','e','r','m'] then ⟨open_terminal e h w fd, false, 0⟩
      else ⟨{ e with mode := Mode.NORMAL }, false, 0⟩
    else if key = 263 ∨ key = 127 then
      ⟨{ e with command_text := e.command_text.dropLast }, false, 0⟩
    else ⟨e, false, 0⟩
  if 32 ≤ key ∧ key ≤ 126 then
    { r with st := { r.st with
        command_text := r.st.command_text ++ [Char.ofNat key] } }
  else r

/-! ### PTY poll (src/pyrix.py lines 629-638) -/

/-- Outcome of one readiness poll of the PTY master. On Linux a closed or
errored pty master raises `OSError` from `select`/`os.read` (child exit
included), which is the except branch of `update_terminal`. -/
inductive PollResult where
  | noData
  | data (bs : List Nat)
  | ioError
deriving DecidableEq, Repr

/-- `Editor.update_terminal`. -/
def update_terminal (e : EditorSt) (r : PollResult) : EditorSt :=
  match e.term_fd with
  | none => e
  | some _ =>
    match r with
    | PollResult.noData => e
    | PollResult.data bs =>
        { e with terminal := e.terminal.map (fun t => t.write bs) }
    | PollResult.ioError =>
        { e with term_fd := none, mode := Mode.NORMAL }

/-! ### Config hex commit (src/pyrix.py lines 353-405) -/

/-- `Editor.hex_to_rgb(hex_str)`: strip leading `#`s, expand a 3-digit
form, parse three 2-character slices with `int(_, 16)` and rescale each to
0..1000 with floor division. `none` is an uncaught ValueError. -/
def hex_to_rgb (s : List Char) : Option (Int × Int × Int) :=
  let t0 := s.dropWhile (fun c => c = '#')
  let t := if t0.length = 3 then t0.flatMap (fun c => [c, c]) else t0
  match pyIntHex (pySlice t 0 2), pyIntHex (pySlice t 2 4),
        pyIntHex (pySlice t 4 6) with
  | some r, some g, some b =>
      some ((r * 1000).fdiv 255, (g * 1000).fdiv 255, (b * 1000).fdiv 255)
  | _, _, _ => none

/-- `Editor.update_color_definition(opt)`. Returns early when the terminal
cannot change colors; otherwise `hex_to_rgb` may raise, and the
`next(...)` generator calls raise StopIteration when no bg/fg option
exists. The `curses.init_color`/`init_pair` calls are external effects;
only the exception behaviour is modelled. -/
def update_color_definition (canChangeColor : Bool) (opts : List ConfigOpt)
    (opt : ConfigOpt) : Option Unit :=
  if canChangeColor = false then some ()
  else
    match hex_to_rgb opt.hexv with
    | none => none
    | some _ =>
      match opts.find? (fun o => o.isBg), opts.find? (fun o => o.isFg) with
      | some _, some _ => some ()
      | _, _ => none

/-- Whether `self.config_input.startswith('#') and len(...) in (4, 7)`. -/
def hexCommitAccepted (input : List Char) : Bool :=
  input.headD ' ' = '#' && (input.length = 4 || input.length = 7)

/-- The `key == 10` branch of `Editor.handle_config` while
`self.is_inputting` holds: commit the typed hex text. `none` is an
uncaught exception escaping the handler (fatal: nothing catches it in
`run`). The `curses.curs_set` call is an external effect. -/
def handle_config_commit (canChangeColor : Bool) (e : EditorSt) :
    Option EditorSt :=
  match e.config_options.get? e.config_index with
  | none => none
  | some opt =>
    if hexCommitAccepted e.config_input then
      let opt1 := { opt with hexv := e.config_input }
      let opts1 := e.config_options.set e.config_index opt1
      match update_color_definition canChangeColor opts1 opt1 with
      | none => none
      | some _ =>
          some { e with config_options := opts1,
                        is_inputting := false, config_input := [] }
    else
      some { e with is_inputting := false, config_input := [] }

/-! ### Soft wrap (src/pyrix.py lines 511-522) -/

/-- Python `range(start, stop, step)` for a positive step, via fuel (the
iteration count is at most `stop`, which `pyRangeUp` passes). -/
def pyRangeUpAux : Nat → Nat → Nat → Nat → List Nat
  | 0, _, _, _ => []
  | fuel + 1, start, stop, step =>
      if start < stop then start :: pyRangeUpAux fuel (start + step) stop step
      else []

def pyRangeUp (start stop step : Nat) : List Nat :=
  pyRangeUpAux stop start stop step

/-- Per-line body of the `get_wrapped_lines` loop. `none` models the
ValueError that `range(0, len(line), 0)` raises; a negative `width` makes
the range empty. -/
def wrapLine (i : Nat) (line : List Char) (width : Int) :
    Option (List (Nat × Nat × Nat)) :=
  if line = [] then some [(i, 0, 0)]
  else if width = 0 then none
  else if width < 0 then some []
  else
    some ((pyRangeUp 0 line.length width.toNat).map
      (fun j => (i, j, min (j + width.toNat) line.length)))

def gwlGo (width : Int) : Nat → List (List Char) →
    Option (List (Nat × Nat × Nat))
  | _, [] => some []
  | i, line :: rest =>
    match wrapLine i line width, gwlGo width (i + 1) rest with
    | some s, some t => some (s ++ t)
    | _, _ => none

/-- `Editor.get_wrapped_lines`: `w` is the screen width from
`getmaxyx`; `width = w - 1 - gutter_width`. -/
def get_wrapped_lines (lines : List (List Char)) (w : Nat)
    (show_line_numbers : Bool) : Option (List (Nat × Nat × Nat)) :=
  let gutter_width : Int := if show_line_numbers then 5 else 0
  gwlGo ((w : Int) - 1 - gutter_width) 0 lines

/-! ## Theorems for the claims -/

/-- The byte stream `ESC[2J ESC[1;1H hi` of claim C1. -/
def c1Bytes : List Nat := [27, 91, 50, 74, 27, 91, 49, 59, 49, 72, 104, 105]

/-- Claim C1 (refuted by the code): feeding a byte stream one byte at a
time is NOT equivalent to feeding it whole, and neither feed clears the
grid or homes the cursor. `write` looks for a final byte starting at the
byte right after ESC, and `[` (0x5B) already lies in the final-byte range
0x40-0x7E, so `handle_ansi` only ever receives `ESC [` (a no-op) and the
parameter/final bytes are printed literally; `ansi_buf` is never consulted,
so a lone ESC at the end of a chunk is simply dropped and the following
chunk's `[` is printed. On a 2 by 12 grid the whole-chunk feed renders
`2J1;1Hhi` while the byte-at-a-time feed renders `[2J[1;1Hhi`. -/
theorem write_chunking_not_equivalent :
    (TerminalEmulator.writeChunks (TerminalEmulator.init 2 12)
        (c1Bytes.map (fun b => [b]))).screen ≠
      (TerminalEmulator.write (TerminalEmulator.init 2 12) c1Bytes).screen ∧
    ((TerminalEmulator.write (TerminalEmulator.init 2 12) c1Bytes).screen.getD 0
        []).getD 0 blankCell = ('2', colorPair 5) ∧
    ((TerminalEmulator.writeChunks (TerminalEmulator.init 2 12)
        (c1Bytes.map (fun b => [b]))).screen.getD 0 []).getD 0 blankCell =
      ('[', colorPair 5) := by
  refine ⟨by decide, by decide, by decide⟩

/-- The 101 single-character edits of claim C2. -/
def edits101 : List Pyrix.Edit := List.replicate 101 (Edit.insertKey 'a')

/-- Claim C2 (refuted by the code): `save_state` evicts only when the stack
already holds MORE than 100 frames before the push, so after 101 edits from
a fresh editor the undo stack holds 101 frames — contradicting the cap the
claim (and the code's own comment) states — and 101 undos DO recover the
state preceding the first edit. -/
theorem undo_cap_off_by_one :
    (applyEdits freshEditor edits101).undo_stack.length = 101 ∧
    (iterUndo (applyEdits freshEditor edits101) 101).lines = freshEditor.lines ∧
    (iterUndo (applyEdits freshEditor edits101) 101).cursor_x = freshEditor.cursor_x ∧
    (iterUndo (applyEdits freshEditor edits101) 101).cursor_y = freshEditor.cursor_y := by
  refine ⟨by decide, by decide, by decide, by decide⟩

/-- Claim C4 counterexample: on a fresh editor (cursor at (0,0), empty
stacks) the INSERT-mode backspace key leaves the document and cursor
unchanged, but it is NOT a complete no-op: `handle_insert` calls
`save_state` before `backspace`, so a checkpoint is pushed. -/
theorem noop_backspace_pushes_checkpoint :
    (applyEdit freshEditor Edit.backspaceKey).lines = freshEditor.lines ∧
    (applyEdit freshEditor Edit.backspaceKey).cursor_x = freshEditor.cursor_x ∧
    (applyEdit freshEditor Edit.backspaceKey).cursor_y = freshEditor.cursor_y ∧
    (applyEdit freshEditor Edit.backspaceKey).undo_stack ≠ freshEditor.undo_stack := by
  refine ⟨by decide, by decide, by decide, by decide⟩

/-- Claim C4 as amended: backspace at (0,0) and delete-forward at
end-of-line leave the document lines and the cursor unchanged but still
push a checkpoint (the `save_state` stack) and clear the redo stack, while
undo and redo on an empty stack leave the whole editor state unchanged. -/
theorem noop_edits_amended (e : EditorSt) :
    (e.cursor_x = 0 → e.cursor_y = 0 →
      (applyEdit e Edit.backspaceKey).lines = e.lines ∧
      (applyEdit e Edit.backspaceKey).cursor_x = e.cursor_x ∧
      (applyEdit e Edit.backspaceKey).cursor_y = e.cursor_y ∧
      (applyEdit e Edit.backspaceKey).undo_stack = (save_state e).undo_stack ∧
      (applyEdit e Edit.backspaceKey).redo_stack = []) ∧
    (e.cursor_x = (e.lines.getD e.cursor_y []).length →
      (applyEdit e Edit.deleteForward).lines = e.lines ∧
      (applyEdit e Edit.deleteForward).cursor_x = e.cursor_x ∧
      (applyEdit e Edit.deleteForward).cursor_y = e.cursor_y ∧
      (applyEdit e Edit.deleteForward).undo_stack = (save_state e).undo_stack ∧
      (applyEdit e Edit.deleteForward).redo_stack = []) ∧
    (e.undo_stack = [] → undo e = e) ∧
    (e.redo_stack = [] → redo e = e) := by
  refine ⟨?_, ?_, ?_, ?_⟩
  · intro hx hy
    simp [applyEdit, backspace, save_state, hx, hy]
  · intro hx
    simp [applyEdit, delete_char, save_state, hx]
  · intro h
    simp [undo, h]
  · intro h
    simp [redo, h]

/-- Witness for `noop_edits_amended` at the fresh editor, which satisfies
all four hypotheses. -/
theorem noop_edits_amended_witness :
    (applyEdit freshEditor Edit.backspaceKey).lines = freshEditor.lines ∧
    (applyEdit freshEditor Edit.deleteForward).lines = freshEditor.lines ∧
    undo freshEditor = freshEditor ∧
    redo freshEditor = freshEditor :=
  ⟨((noop_edits_amended freshEditor).1 rfl rfl).1,
   ((noop_edits_amended freshEditor).2.1 rfl).1,
   (noop_edits_amended freshEditor).2.2.1 rfl,
   (noop_edits_amended freshEditor).2.2.2 rfl⟩

/-- The commit text of claim C5's failing input. -/
def badHexInput : List Char := ['#', 'g', 'g', 'g', 'g', 'g', 'g']

/-- A CONFIG-mode editor in the hex-input sub-state over the Foreground
option, about to commit `badHexInput`. -/
def cfgStBad : EditorSt :=
  { freshEditor with mode := Mode.CONFIG, is_inputting := true,
                     config_index := 1, config_input := badHexInput }

/-- Claim C5 (refuted by the code on its safety part): the commit text
`#gggggg` passes the acceptance check (starts with `#`, length 7) but in a
color-capable terminal `update_color_definition` then calls
`hex_to_rgb('#gggggg')`, whose `int('gg', 16)` raises an uncaught
ValueError — a fatal path. A string failing the check (here `zz`) is
indeed discarded silently with the options untouched. -/
theorem handle_config_hex_fatal :
    hexCommitAccepted badHexInput = true ∧
    handle_config_commit true cfgStBad = none ∧
    handle_config_commit true { cfgStBad with config_input := ['z', 'z'] } =
      some { cfgStBad with config_input := [], is_inputting := false } := by
  refine ⟨by decide, by decide, by decide⟩

/-- Claim C6: when polling the PTY master raises a read error / EOF
(`OSError`/`EOFError`, the except branch of `update_terminal`), the
descriptor is dropped and the mode is forced to NORMAL. -/
theorem update_terminal_teardown (e : EditorSt) (fd : Nat)
    (h : e.term_fd = some fd) :
    (update_terminal e PollResult.ioError).term_fd = none ∧
    (update_terminal e PollResult.ioError).mode = Mode.NORMAL := by
  simp [update_terminal, h]

/-- A concrete editor with an attached PTY session. -/
def attachedEditor : EditorSt :=
  { freshEditor with term_fd := some 3, mode := Mode.TERMINAL }

/-- Witness for `update_terminal_teardown` on a concrete attached session. -/
theorem update_terminal_teardown_witness :
    (update_terminal attachedEditor PollResult.ioError).term_fd = none ∧
    (update_terminal attachedEditor PollResult.ioError).mode = Mode.NORMAL :=
  update_terminal_teardown attachedEditor 3 rfl

/-! Machinery for claim C3: a run of at most 100 atomic edits never evicts
its own checkpoints, so undoing once per edit walks exactly back through
them. -/

/-- Every atomic edit leaves the undo stack exactly as `save_state` pushed
it: the pre-edit snapshot on top. -/
theorem applyEdit_undo_stack (e : EditorSt) (ed : Edit) :
    (applyEdit e ed).undo_stack = (save_state e).undo_stack := by
  cases ed <;>
    simp only [applyEdit, insertChar, backspace, newline, delete_char,
      accept_suggestion] <;>
    (repeat' split) <;> rfl

theorem checkpoints_length (ops : List Edit) :
    ∀ e : EditorSt, (checkpoints e ops).length = ops.length := by
  induction ops with
  | nil => intro e; rfl
  | cons ed rest ih => intro e; simp [checkpoints, ih]

/-- After `n ≤ 100` edits the undo stack is the run's own checkpoints
(newest first) on top of a prefix of the original stack: eviction removes
frames only from the bottom, and with at most 100 pushes it can never
reach the run's own frames. -/
theorem applyEdits_undo_stack (ops : List Edit) :
    ∀ e : EditorSt, ops.length ≤ 100 →
      ∃ k, (applyEdits e ops).undo_stack =
          checkpoints e ops ++ e.undo_stack.take k ∧
        min e.undo_stack.length (101 - ops.length) ≤ k := by
  induction ops with
  | nil =>
    intro e _
    exact ⟨e.undo_stack.length, by simp [applyEdits, checkpoints], by omega⟩
  | cons ed rest ih =>
    intro e h
    have hrest : rest.length ≤ 100 := by
      simp only [List.length_cons] at h; omega
    obtain ⟨k1, hs, hk1⟩ := ih (applyEdit e ed) hrest
    have hstack : (applyEdit e ed).undo_stack =
        mkFrame e :: (if 100 < e.undo_stack.length
          then e.undo_stack.dropLast else e.undo_stack) := by
      rw [applyEdit_undo_stack]; rfl
    by_cases hL : 100 < e.undo_stack.length
    · -- eviction branch: the kept part is `take (length - 1)`
      have hlen : (applyEdit e ed).undo_stack.length =
          e.undo_stack.length := by
        rw [hstack, if_pos hL]
        simp [List.length_dropLast]
        omega
      have hk1pos : 1 ≤ k1 := by
        rw [hlen] at hk1
        simp only [List.length_cons] at h
        omega
      refine ⟨min (k1 - 1) (e.undo_stack.length - 1), ?_, ?_⟩
      · rw [applyEdits, hs, hstack, if_pos hL]
        have htake : (mkFrame e :: e.undo_stack.dropLast).take k1 =
            mkFrame e :: e.undo_stack.take (min (k1 - 1)
              (e.undo_stack.length - 1)) := by
          obtain ⟨k2, rfl⟩ : ∃ k2, k1 = k2 + 1 :=
            ⟨k1 - 1, by omega⟩
          simp [List.take_succ_cons, List.dropLast_eq_take, List.take_take]
        rw [htake]
        simp [checkpoints, List.append_assoc]
      · rw [hlen] at hk1
        simp only [List.length_cons] at h hk1 ⊢
        omega
    · -- no eviction
      have hlen : (applyEdit e ed).undo_stack.length =
          e.undo_stack.length + 1 := by
        rw [hstack, if_neg hL]; rfl
      have hk1pos : 1 ≤ k1 := by
        rw [hlen] at hk1
        simp only [List.length_cons] at h
        omega
      refine ⟨k1 - 1, ?_, ?_⟩
      · rw [applyEdits, hs, hstack, if_neg hL]
        have htake : (mkFrame e :: e.undo_stack).take k1 =
            mkFrame e :: e.undo_stack.take (k1 - 1) := by
          obtain ⟨k2, rfl⟩ : ∃ k2, k1 = k2 + 1 :=
            ⟨k1 - 1, by omega⟩
          simp [List.take_succ_cons]
        rw [htake]
        simp [checkpoints, List.append_assoc]
      · rw [hlen] at hk1
        simp only [List.length_cons] at h hk1 ⊢
        omega

/-- Undoing once per frame down a chain of frames lands on the last
(deepest) one of the chain. -/
theorem iterUndo_chain (fs : List Frame) :
    ∀ (e : EditorSt) (f : Frame) (t : List Frame),
      e.undo_stack = fs ++ f :: t →
      (iterUndo e (fs.length + 1)).lines = f.lines ∧
      (iterUndo e (fs.length + 1)).cursor_x = f.cursor_x ∧
      (iterUndo e (fs.length + 1)).cursor_y = f.cursor_y := by
  induction fs with
  | nil =>
    intro e f t h
    simp only [List.nil_append] at h
    simp [iterUndo, undo, h]
  | cons g fs ih =>
    intro e f t h
    simp only [List.cons_append] at h
    have h2 : (undo e).undo_stack = fs ++ f :: t := by
      simp [undo, h]
    simpa [iterUndo] using ih (undo e) f t h2

/-- Claim C3: for every starting editor state and every run of at most 100
atomic edits, undoing once per edit restores the document lines and the
cursor exactly. -/
theorem undo_restores_after_edits (e : EditorSt) (ops : List Edit)
    (h : ops.length ≤ 100) :
    (iterUndo (applyEdits e ops) ops.length).lines = e.lines ∧
    (iterUndo (applyEdits e ops) ops.length).cursor_x = e.cursor_x ∧
    (iterUndo (applyEdits e ops) ops.length).cursor_y = e.cursor_y := by
  cases ops with
  | nil => simp [applyEdits, iterUndo]
  | cons ed rest =>
    obtain ⟨k, hs, -⟩ := applyEdits_undo_stack (ed :: rest) e h
    have h2 : (applyEdits e (ed :: rest)).undo_stack =
        checkpoints (applyEdit e ed) rest ++
          (mkFrame e :: e.undo_stack.take k) := by
      rw [hs]
      simp [checkpoints, List.append_assoc]
    have h3 := iterUndo_chain (checkpoints (applyEdit e ed) rest)
      (applyEdits e (ed :: rest)) (mkFrame e) (e.undo_stack.take k) h2
    rw [checkpoints_length] at h3
    simpa [mkFrame, List.length_cons] using h3

/-- Witness for `undo_restores_after_edits`: a concrete two-edit run on the
fresh editor, undone twice. -/
theorem undo_restores_after_edits_witness :
    (iterUndo (applyEdits freshEditor [Edit.insertKey 'b', Edit.enterKey])
        2).lines = freshEditor.lines ∧
    (iterUndo (applyEdits freshEditor [Edit.insertKey 'b', Edit.enterKey])
        2).cursor_x = freshEditor.cursor_x ∧
    (iterUndo (applyEdits freshEditor [Edit.insertKey 'b', Edit.enterKey])
        2).cursor_y = freshEditor.cursor_y :=
  undo_restores_after_edits freshEditor [Edit.insertKey 'b', Edit.enterKey]
    (by decide)

/-- The byte stream `ESC[31m x` of claim C9. -/
def c9Bytes : List Nat := [27, 91, 51, 49, 109, 120]

/-- Claim C9 (refuted by the code on its concrete part): the SGR logic
inside `handle_ansi` does map parameter 31 to the red palette slot (pair
41) when handed the complete sequence, but `write` never delivers such a
sequence — its final-byte scan stops at `[` (0x5B ∈ 0x40-0x7E), so
`ESC[31mx` prints the four characters `3`, `1`, `m`, `x` with the default
attribute and leaves `current_attr` at the default. -/
theorem sgr_sequence_printed_literally :
    (TerminalEmulator.handle_ansi (TerminalEmulator.init 2 10)
        [27, 91, 51, 49, 109]).current_attr = colorPair 41 ∧
    ((TerminalEmulator.write (TerminalEmulator.init 2 10) c9Bytes).screen.getD 0
        []).take 4 =
      [('3', colorPair 5), ('1', colorPair 5), ('m', colorPair 5),
       ('x', colorPair 5)] ∧
    (TerminalEmulator.write (TerminalEmulator.init 2 10) c9Bytes).current_attr =
      colorPair 5 := by
  refine ⟨by decide, by decide, by decide⟩

/-- Claim C8: pressing Enter (key 10) in COMMAND mode dispatches on the
exact, case-sensitive stripped token: `w` saves once and returns to
NORMAL; `q` signals quit; `wq` saves exactly once and signals quit; `u`
undoes; `r` redoes; `config` enters CONFIG; `term` opens a PTY session and
enters TERMINAL; every other token is discarded, returning to NORMAL with
no save and no quit. -/
theorem handle_command_dispatch (e : EditorSt) (h w fd : Nat) :
    (pyStrip e.command_text = ['w'] →
      (handle_command e 10 h w fd).st.mode = Mode.NORMAL ∧
      (handle_command e 10 h w fd).st.lines = e.lines ∧
      (handle_command e 10 h w fd).quit = false ∧
      (handle_command e 10 h w fd).saves = 1) ∧
    (pyStrip e.command_text = ['q'] →
      (handle_command e 10 h w fd).st = e ∧
      (handle_command e 10 h w fd).quit = true ∧
      (handle_command e 10 h w fd).saves = 0) ∧
    (pyStrip e.command_text = ['w', 'q'] →
      (handle_command e 10 h w fd).st = e ∧
      (handle_command e 10 h w fd).quit = true ∧
      (handle_command e 10 h w fd).saves = 1) ∧
    (pyStrip e.command_text = ['u'] →
      (handle_command e 10 h w fd).st = { undo e with mode := Mode.NORMAL } ∧
      (handle_command e 10 h w fd).quit = false ∧
      (handle_command e 10 h w fd).saves = 0) ∧
    (pyStrip e.command_text = ['r'] →
      (handle_command e 10 h w fd).st = { redo e with mode := Mode.NORMAL } ∧
      (handle_command e 10 h w fd).quit = false ∧
      (handle_command e 10 h w fd).saves = 0) ∧
    (pyStrip e.command_text = ['c', 'o', 'n', 'f', 'i', 'g'] →
      (handle_command e 10 h w fd).st.mode = Mode.CONFIG ∧
      (handle_command e 10 h w fd).st.lines = e.lines ∧
      (handle_command e 10 h w fd).quit = false ∧
      (handle_command e 10 h w fd).saves = 0) ∧
    (pyStrip e.command_text = ['t', 'e', 'r', 'm'] →
      (handle_command e 10 h w fd).st.mode = Mode.TERMINAL ∧
      (handle_command e 10 h w fd).st.term_fd = some fd ∧
      (handle_command e 10 h w fd).st.terminal =
        some (TerminalEmulator.init (h - 2) w) ∧
      (handle_command e 10 h w fd).quit = false ∧
      (handle_command e 10 h w fd).saves = 0) ∧
    (pyStrip e.command_text ∉
        ([['w'], ['q'], ['w', 'q'], ['u'], ['r'],
          ['c', 'o', 'n', 'f', 'i', 'g'], ['t', 'e', 'r', 'm']] :
          List (List Char)) →
      (handle_command e 10 h w fd).st = { e with mode := Mode.NORMAL } ∧
      (handle_command e 10 h w fd).quit = false ∧
      (handle_command e 10 h w fd).saves = 0) := by
  refine ⟨?_, ?_, ?_, ?_, ?_, ?_, ?_, ?_⟩ <;> intro hcmd
  · simp [handle_command, hcmd, notify]
  · simp [handle_command, hcmd]
  · simp [handle_command, hcmd]
  · simp [handle_command, hcmd]
  · simp [handle_command, hcmd]
  · simp [handle_command, hcmd]
  · simp [handle_command, hcmd, open_terminal]
  · simp only [List.mem_cons, List.not_mem_nil, or_false, not_or] at hcmd
    obtain ⟨h1, h2, h3, h4, h5, h6, h7⟩ := hcmd
    simp [handle_command, h1, h2, h3, h4, h5, h6, h7]

/-- A COMMAND-mode editor with `wq` typed. -/
def wqEditor : EditorSt :=
  { freshEditor with mode := Mode.COMMAND, command_text := ['w', 'q'] }

/-- Witness for `handle_command_dispatch`: `wq` on a concrete editor saves
exactly once and signals quit. -/
theorem handle_command_dispatch_witness :
    (handle_command wqEditor 10 24 80 5).quit = true ∧
    (handle_command wqEditor 10 24 80 5).saves = 1 :=
  ⟨((handle_command_dispatch wqEditor 24 80 5).2.2.1 (by decide)).2.1,
   ((handle_command_dispatch wqEditor 24 80 5).2.2.1 (by decide)).2.2⟩

/-! Machinery for claim C10: the cursor/grid bounds invariant. -/

/-- Well-formedness of an emulator state: the cursor is strictly inside
the fixed grid and the grid has exactly `h` rows of `w` cells. -/
def TermInv (t : TerminalEmulator) : Prop :=
  t.cursor_x < t.w ∧ t.cursor_y < t.h ∧ t.screen.length = t.h ∧
    ∀ row ∈ t.screen, row.length = t.w

theorem set_row_all (s : List (List Cell)) (y : Nat) (r : List Cell)
    (w : Nat) (hr : ∀ row ∈ s, row.length = w) (hrow : r.length = w) :
    ∀ row ∈ s.set y r, row.length = w := by
  intro row hm
  rcases List.mem_or_eq_of_mem_set hm with h | h
  · exact hr _ h
  · rw [h]; exact hrow

theorem getD_row_length (s : List (List Cell)) (y w : Nat)
    (hy : y < s.length) (hr : ∀ row ∈ s, row.length = w) :
    (s.getD y []).length = w := by
  rw [List.getD_eq_getElem _ _ hy]
  exact hr _ (List.getElem_mem hy)

theorem scroll_inv (t : TerminalEmulator) (hx : t.cursor_x < t.w)
    (hh : 1 ≤ t.h) (hs : t.screen.length = t.h)
    (hr : ∀ row ∈ t.screen, row.length = t.w) :
    TermInv t.scroll := by
  refine ⟨hx, by simp [TerminalEmulator.scroll]; omega, ?_, ?_⟩
  · simp [TerminalEmulator.scroll, List.length_tail, hs]
    omega
  · intro row hm
    simp only [TerminalEmulator.scroll, List.mem_append] at hm
    rcases hm with hm | hm
    · exact hr _ (List.mem_of_mem_tail hm)
    · simp only [List.mem_singleton] at hm
      simp [hm, TerminalEmulator.scroll]

theorem eraseLoop_length (n : Nat) :
    ∀ (row : List Cell) (x attr : Nat),
      (TerminalEmulator.eraseLoop row x n attr).length = row.length := by
  induction n with
  | zero => intro row x attr; rfl
  | succ m ih =>
    intro row x attr
    rw [TerminalEmulator.eraseLoop, ih]
    exact List.length_set ..

/-- Constructor form of `TermInv`, forcing the structure-literal
projections to reduce. -/
theorem TermInv_fields {h w x y a : Nat} {s : List (List Cell)}
    {b : List Nat} (hx : x < w) (hy : y < h) (hs : s.length = h)
    (hr : ∀ row ∈ s, row.length = w) :
    TermInv ⟨h, w, x, y, a, s, b⟩ :=
  ⟨hx, hy, hs, hr⟩

theorem handle_ansi_inv (t : TerminalEmulator) (seq : List Nat)
    (ht : TermInv t) : TermInv (t.handle_ansi seq) := by
  obtain ⟨hx, hy, hs, hr⟩ := ht
  unfold TerminalEmulator.handle_ansi
  split
  · -- CSI shape `27 :: 91 :: rest`
    dsimp only
    split
    · -- SGR: only the attribute changes
      exact TermInv_fields hx hy hs hr
    split
    · -- CUP: both coordinates clamped into the grid
      refine TermInv_fields ?_ ?_ hs hr <;> omega
    split
    · -- ED
      split
      · refine TermInv_fields (by omega) (by omega) (by simp) ?_
        intro row hm
        rw [(List.mem_replicate.mp hm).2]
        simp
      · exact ⟨hx, hy, hs, hr⟩
    split
    · -- EL: one row rewritten in place
      refine TermInv_fields hx hy (by simp [hs]) ?_
      apply set_row_all _ _ _ _ hr
      rw [eraseLoop_length]
      exact getD_row_length _ _ _ (by omega) hr
    · exact ⟨hx, hy, hs, hr⟩
  · exact ⟨hx, hy, hs, hr⟩

theorem procByte_inv (t : TerminalEmulator) (c : Nat) (ht : TermInv t) :
    TermInv (TerminalEmulator.procByte t c) := by
  obtain ⟨hx, hy, hs, hr⟩ := ht
  unfold TerminalEmulator.procByte
  dsimp only
  split
  · exact TermInv_fields (by omega) hy hs hr
  split
  · -- LF
    split
    · exact scroll_inv _ hx (show 1 ≤ t.h by omega) hs hr
    · next hlt => exact TermInv_fields hx (by omega) hs hr
  split
  · exact TermInv_fields (by omega) hy hs hr
  split
  · exact ⟨hx, hy, hs, hr⟩
  split
  · -- printable byte: the cell write keeps the grid dimensions; the cursor
    -- either advances inside the row, wraps to the next row, or scrolls
    have hlen : (((t.screen.getD t.cursor_y []).set t.cursor_x
        (Char.ofNat c, t.current_attr)).length) = t.w := by
      rw [List.length_set]
      exact getD_row_length _ _ _ (by omega) hr
    have hall := set_row_all t.screen t.cursor_y _ t.w hr hlen
    have hslen : (t.screen.set t.cursor_y
        ((t.screen.getD t.cursor_y []).set t.cursor_x
          (Char.ofNat c, t.current_attr))).length = t.h := by
      rw [List.length_set]; exact hs
    repeat' split
    all_goals first
      | exact ⟨hx, hy, hs, hr⟩
      | exact scroll_inv _ (show 0 < t.w by omega)
          (show 1 ≤ t.h by omega) hslen hall
      | exact TermInv_fields (by omega) (by omega) hslen hall
  · exact ⟨hx, hy, hs, hr⟩

theorem writeLoop_inv (fuel : Nat) :
    ∀ (t : TerminalEmulator) (data : List Nat),
      TermInv t → TermInv (TerminalEmulator.writeLoop t fuel data) := by
  induction fuel with
  | zero =>
    intro t data ht
    cases data with
    | nil => exact ht
    | cons c rest => exact ht
  | succ n ih =>
    intro t data ht
    cases data with
    | nil => exact ht
    | cons c rest =>
      unfold TerminalEmulator.writeLoop
      split
      · split
        · exact ih _ _ (handle_ansi_inv _ _ ht)
        · exact ih _ _ (procByte_inv _ _ ht)
      · exact ih _ _ (procByte_inv _ _ ht)

/-- Claim C10: a freshly constructed emulator with at least one row and
one column satisfies the bounds invariant, and `write` preserves it on
every byte sequence — so the cursor always stays strictly inside the
`h` by `w` grid and every grid access lands in an existing row of width
`w`. -/
theorem write_preserves_bounds :
    (∀ h w : Nat, 1 ≤ h → 1 ≤ w → TermInv (TerminalEmulator.init h w)) ∧
    ∀ (t : TerminalEmulator) (data : List Nat),
      TermInv t → TermInv (t.write data) := by
  constructor
  · intro h w hh hw
    refine ⟨?_, ?_, ?_, ?_⟩
    · simp only [TerminalEmulator.init]; omega
    · simp only [TerminalEmulator.init]; omega
    · simp [TerminalEmulator.init]
    · intro row hm
      simp only [TerminalEmulator.init] at hm ⊢
      rw [(List.mem_replicate.mp hm).2]
      simp
  · intro t data ht
    exact writeLoop_inv data.length t data ht

/-- Witness for `write_preserves_bounds`: the invariant holds after
writing a concrete stream (containing cursor motion, clears and an
out-of-range CUP) to a concrete 2 by 3 emulator. -/
theorem write_preserves_bounds_witness :
    TermInv ((TerminalEmulator.init 2 3).write
      [104, 105, 106, 10, 10, 10, 27, 91, 57, 59, 57, 72]) :=
  write_preserves_bounds.2 (TerminalEmulator.init 2 3)
    [104, 105, 106, 10, 10, 10, 27, 91, 57, 59, 57, 72]
    (write_preserves_bounds.1 2 3 (by omega) (by omega))

/-! Machinery for claim C7: the wrap computation partitions each line. -/

/-- The text width `get_wrapped_lines` computes:
viewport width − gutter width − 1. -/
def textWidth (w : Nat) (sln : Bool) : Int :=
  (w : Int) - 1 - (if sln then 5 else 0)

theorem get_wrapped_lines_eq (lines : List (List Char)) (w : Nat)
    (sln : Bool) :
    get_wrapped_lines lines w sln = gwlGo (textWidth w sln) 0 lines := rfl

theorem pyRangeUpAux_closed (step : Nat) (hs : 1 ≤ step) :
    ∀ (fuel start stop : Nat), stop - start ≤ fuel →
      pyRangeUpAux fuel start stop step =
        (List.range ((stop - start + step - 1) / step)).map
          (fun k => start + k * step) := by
  intro fuel
  induction fuel with
  | zero =>
    intro start stop hf
    rw [pyRangeUpAux]
    have hm : (stop - start + step - 1) / step = 0 :=
      Nat.div_eq_of_lt (by omega)
    rw [hm]
    simp
  | succ n ih =>
    intro start stop hf
    rw [pyRangeUpAux]
    split
    · rename_i hlt
      rw [ih (start + step) stop (by omega)]
      have hm : (stop - start + step - 1) / step =
          (stop - (start + step) + step - 1) / step + 1 := by
        rcases Nat.le_total (stop - start) step with hd | hd
        · have h1 : (stop - start + step - 1) / step = 1 :=
            Nat.div_eq_of_lt_le (by omega) (by omega)
          have h2 : stop - (start + step) = 0 := by omega
          rw [h1, h2, Nat.div_eq_of_lt (by omega)]
        · have h2 : stop - start + step - 1 =
              stop - (start + step) + step - 1 + step := by omega
          rw [h2, Nat.add_div_right _ (by omega)]
      rw [hm, List.range_succ_eq_map]
      simp only [List.map_cons, List.map_map, Nat.zero_mul, Nat.add_zero]
      refine congrArg₂ _ rfl ?_
      apply List.map_congr_left
      intro k _
      simp only [Function.comp_apply, Nat.succ_eq_add_one, Nat.add_mul]
      omega
    · rename_i hge
      have hm : (stop - start + step - 1) / step = 0 :=
        Nat.div_eq_of_lt (by omega)
      rw [hm]
      simp

theorem chunks_concat (step : Nat) (hs : 1 ≤ step) :
    ∀ (fuel : Nat) (l : List Char) (start : Nat), l.length - start ≤ fuel →
      ((pyRangeUpAux fuel start l.length step).map
        (fun j => (l.drop j).take (min (j + step) l.length - j))).flatten =
        l.drop start := by
  intro fuel
  induction fuel with
  | zero =>
    intro l start hf
    rw [pyRangeUpAux]
    simp only [List.map_nil, List.flatten_nil]
    exact (List.drop_eq_nil_of_le (by omega)).symm
  | succ n ih =>
    intro l start hf
    rw [pyRangeUpAux]
    split
    · rename_i hlt
      simp only [List.map_cons, List.flatten_cons]
      rw [ih l (start + step) (by omega)]
      have h2 : (l.drop start).take (min (start + step) l.length - start) =
          (l.drop start).take step := by
        rcases Nat.le_total step (l.length - start) with hd | hd
        · refine congrArg₂ _ ?_ rfl
          omega
        · rw [List.take_of_length_le (by simp [List.length_drop]; omega),
            List.take_of_length_le (by simp [List.length_drop]; omega)]
      rw [h2, show l.drop (start + step) = (l.drop start).drop step from
        (List.drop_drop step start l).symm, List.take_append_drop]
    · simp only [List.map_nil, List.flatten_nil]
      exact (List.drop_eq_nil_of_le (by omega)).symm

theorem wrapLine_some (i : Nat) (line : List Char) (width : Int)
    (hw : 1 ≤ width) :
    wrapLine i line width =
      some (if line = [] then [(i, 0, 0)]
        else (pyRangeUp 0 line.length width.toNat).map
          (fun j => (i, j, min (j + width.toNat) line.length))) := by
  unfold wrapLine
  rcases eq_or_ne line [] with h | h
  · rw [if_pos h, if_pos h]
  · rw [if_neg h, if_neg h, if_neg (by omega), if_neg (by omega)]

theorem wrapLine_fst (i : Nat) (line : List Char) (width : Int)
    (s : List (Nat × Nat × Nat)) (h : wrapLine i line width = some s) :
    ∀ x ∈ s, x.1 = i := by
  unfold wrapLine at h
  split at h
  · simp only [Option.some_inj] at h
    subst h
    intro x hx
    simp only [List.mem_singleton] at hx
    simp [hx]
  · split at h
    · exact absurd h (by simp)
    · split at h
      · simp only [Option.some_inj] at h
        subst h
        intro x hx
        simp at hx
      · simp only [Option.some_inj] at h
        subst h
        intro x hx
        obtain ⟨j, -, rfl⟩ := List.mem_map.mp hx
        rfl

theorem gwlGo_fst_ge (width : Int) :
    ∀ (ls : List (List Char)) (k : Nat) (segs : List (Nat × Nat × Nat)),
      gwlGo width k ls = some segs → ∀ x ∈ segs, k ≤ x.1 := by
  intro ls
  induction ls with
  | nil =>
    intro k segs h x hx
    simp only [gwlGo, Option.some_inj] at h
    subst h
    simp at hx
  | cons l0 rest ih =>
    intro k segs h x hx
    rw [gwlGo] at h
    cases hw1 : wrapLine k l0 width with
    | none => rw [hw1] at h; simp at h
    | some s0 =>
      cases hw2 : gwlGo width (k + 1) rest with
      | none => rw [hw1, hw2] at h; simp at h
      | some t =>
        rw [hw1, hw2] at h
        simp only [Option.some_inj] at h
        subst h
        rcases List.mem_append.mp hx with hm | hm
        · exact Nat.le_of_eq (wrapLine_fst _ _ _ _ hw1 x hm).symm
        · exact Nat.le_of_succ_le (ih (k + 1) t hw2 x hm)

theorem gwlGo_filter (width : Int) :
    ∀ (ls : List (List Char)) (k i : Nat) (segs : List (Nat × Nat × Nat))
      (line : List Char),
      gwlGo width k ls = some segs → ls[i]? = some line →
      ∃ s, wrapLine (k + i) line width = some s ∧
        segs.filter (fun x => x.1 == k + i) = s := by
  intro ls
  induction ls with
  | nil => intro k i segs line h hl; simp at hl
  | cons l0 rest ih =>
    intro k i segs line h hl
    rw [gwlGo] at h
    cases hw1 : wrapLine k l0 width with
    | none => rw [hw1] at h; simp at h
    | some s0 =>
      cases hw2 : gwlGo width (k + 1) rest with
      | none => rw [hw1, hw2] at h; simp at h
      | some t =>
        rw [hw1, hw2] at h
        simp only [Option.some_inj] at h
        subst h
        rw [List.filter_append]
        cases i with
        | zero =>
          rw [List.getElem?_cons_zero, Option.some_inj] at hl
          subst hl
          refine ⟨s0, by simpa using hw1, ?_⟩
          have h1 : s0.filter (fun x => x.1 == k + 0) = s0 := by
            apply List.filter_eq_self.mpr
            intro a ha
            simp [wrapLine_fst _ _ _ _ hw1 a ha]
          have h2 : t.filter (fun x => x.1 == k + 0) = [] := by
            apply List.filter_eq_nil_iff.mpr
            intro a ha
            have := gwlGo_fst_ge width rest (k + 1) t hw2 a ha
            simp only [beq_iff_eq]
            omega
          rw [h1, h2, List.append_nil]
        | succ i' =>
          rw [List.getElem?_cons_succ] at hl
          obtain ⟨s, hws, hfil⟩ := ih (k + 1) i' t line hw2 hl
          have harith : k + (i' + 1) = k + 1 + i' := by omega
          rw [harith]
          refine ⟨s, hws, ?_⟩
          have h1 : s0.filter (fun x => x.1 == k + 1 + i') = [] := by
            apply List.filter_eq_nil_iff.mpr
            intro a ha
            have := wrapLine_fst _ _ _ _ hw1 a ha
            simp only [beq_iff_eq]
            omega
          rw [h1, hfil, List.nil_append]

/-- Claim C7 as amended (the hypothesis `1 ≤ textWidth` added): whenever
the computed text width is positive, the wrap computation succeeds, emits
exactly one zero-length segment per empty line, and partitions each
non-empty line of length `L` into `(L + width - 1) / width` — that is,
`ceil(L/width)` — consecutive in-order segments of at most `width` columns
whose concatenation reproduces the line. -/
theorem wrap_partition_amended (lines : List (List Char)) (w : Nat)
    (sln : Bool) (hw : 1 ≤ textWidth w sln) :
    ∃ segs, get_wrapped_lines lines w sln = some segs ∧
      ∀ i line, lines[i]? = some line →
        (line = [] → segs.filter (fun x => x.1 == i) = [(i, 0, 0)]) ∧
        (line ≠ [] →
          (segs.filter (fun x => x.1 == i)).length =
            (line.length + (textWidth w sln).toNat - 1) /
              (textWidth w sln).toNat ∧
          segs.filter (fun x => x.1 == i) =
            (List.range ((line.length + (textWidth w sln).toNat - 1) /
                (textWidth w sln).toNat)).map
              (fun k => (i, k * (textWidth w sln).toNat,
                min (k * (textWidth w sln).toNat + (textWidth w sln).toNat)
                  line.length)) ∧
          (∀ x ∈ segs.filter (fun x => x.1 == i),
            x.2.1 ≤ x.2.2 ∧ x.2.2 - x.2.1 ≤ (textWidth w sln).toNat) ∧
          ((segs.filter (fun x => x.1 == i)).map
            (fun x => (line.drop x.2.1).take (x.2.2 - x.2.1))).flatten =
            line) := by
  set wd := (textWidth w sln).toNat with hwd
  have hwd1 : 1 ≤ wd := by omega
  -- totality
  have hsome : ∀ (k : Nat) (ls : List (List Char)),
      ∃ segs, gwlGo (textWidth w sln) k ls = some segs := by
    intro k ls
    induction ls generalizing k with
    | nil => exact ⟨[], rfl⟩
    | cons l0 rest ih =>
      obtain ⟨t, ht⟩ := ih (k + 1)
      obtain ⟨s0v, hs0⟩ : ∃ s0v, wrapLine k l0 (textWidth w sln) = some s0v :=
        ⟨_, wrapLine_some k l0 _ hw⟩
      exact ⟨s0v ++ t, by rw [gwlGo, hs0, ht]⟩
  obtain ⟨segs, hsegs⟩ := hsome 0 lines
  refine ⟨segs, by rw [get_wrapped_lines_eq]; exact hsegs, ?_⟩
  intro i line hline
  obtain ⟨s, hws, hfil⟩ := gwlGo_filter (textWidth w sln) lines 0 i segs
    line hsegs hline
  rw [Nat.zero_add] at hws hfil
  rw [wrapLine_some i line _ hw, Option.some_inj] at hws
  constructor
  · intro hempty
    rw [hfil, ← hws, if_pos hempty]
  · intro hne
    rw [if_neg hne] at hws
    subst hws
    -- closed form of the start offsets
    have hrange : pyRangeUp 0 line.length wd =
        (List.range ((line.length + wd - 1) / wd)).map (fun k => k * wd) := by
      rw [pyRangeUp, pyRangeUpAux_closed wd hwd1 line.length 0 line.length
        (by omega)]
      simp
    have hclosed : segs.filter (fun x => x.1 == i) =
        (List.range ((line.length + wd - 1) / wd)).map
          (fun k => (i, k * wd, min (k * wd + wd) line.length)) := by
      rw [hfil, hrange, List.map_map]
      rfl
    refine ⟨?_, hclosed, ?_, ?_⟩
    · rw [hclosed, List.length_map, List.length_range]
    · intro x hx
      rw [hclosed] at hx
      obtain ⟨k, hk, rfl⟩ := List.mem_map.mp hx
      rw [List.mem_range] at hk
      have hq := Nat.div_mul_le_self (line.length + wd - 1) wd
      have hk1 : (k + 1) * wd ≤ (line.length + wd - 1) / wd * wd :=
        Nat.mul_le_mul_right wd hk
      have hkw : k * wd + wd ≤ line.length + wd - 1 := by
        rw [Nat.add_mul, Nat.one_mul] at hk1
        omega
      refine ⟨?_, ?_⟩
      · show k * wd ≤ min (k * wd + wd) line.length
        omega
      · show min (k * wd + wd) line.length - k * wd ≤ wd
        omega
    · rw [hfil, List.map_map]
      have hcc := chunks_concat wd hwd1 line.length line 0 (by omega)
      rw [List.drop_zero] at hcc
      exact hcc

/-- Witness for `wrap_partition_amended` at a concrete document and
viewport (text width 4). -/
theorem wrap_partition_amended_witness :
    ∃ segs, get_wrapped_lines [['a','b','c','d','e'], []] 10 true =
        some segs ∧
      ∀ i line, ([['a','b','c','d','e'], []] : List (List Char))[i]? =
          some line →
        (line = [] → segs.filter (fun x => x.1 == i) = [(i, 0, 0)]) ∧
        (line ≠ [] →
          (segs.filter (fun x => x.1 == i)).length =
            (line.length + (textWidth 10 true).toNat - 1) /
              (textWidth 10 true).toNat ∧
          segs.filter (fun x => x.1 == i) =
            (List.range ((line.length + (textWidth 10 true).toNat - 1) /
                (textWidth 10 true).toNat)).map
              (fun k => (i, k * (textWidth 10 true).toNat,
                min (k * (textWidth 10 true).toNat + (textWidth 10 true).toNat)
                  line.length)) ∧
          (∀ x ∈ segs.filter (fun x => x.1 == i),
            x.2.1 ≤ x.2.2 ∧ x.2.2 - x.2.1 ≤ (textWidth 10 true).toNat) ∧
          ((segs.filter (fun x => x.1 == i)).map
            (fun x => (line.drop x.2.1).take (x.2.2 - x.2.1))).flatten =
            line) :=
  wrap_partition_amended [['a','b','c','d','e'], []] 10 true (by decide)

/-- Claim C7 counterexample: with viewport width 5 and the gutter enabled
the computed text width is `5 - 1 - 5 = -1`, so `range(0, 1, -1)` is empty
and the non-empty line `['a']` yields NO segment at all — its (empty)
segment list cannot concatenate back to the line. (At width 0, e.g.
viewport width 6, the computation instead raises ValueError.) -/
theorem wrap_narrow_counterexample :
    get_wrapped_lines [['a']] 5 true = some [] ∧
    (([] : List (Nat × Nat × Nat)).map
      (fun x => ((['a'] : List Char).drop x.2.1).take (x.2.2 - x.2.1))).flatten
      ≠ ['a'] ∧
    get_wrapped_lines [['a']] 6 true = none := by
  refine ⟨by decide, by decide, by decide⟩

end Pyrix
